import Mathlib

/-!
# Verification of the crc-rocksoft CRC engine

Shallow embedding of the crate's core: the `ValueType`-generic
`CrcTable` parameter set (src/primitive/spec.rs), the table-backed
incremental hasher `CrcTableHasher` (src/primitive/hasher.rs) and the
`CrcHasher` trait surface (src/lib.rs).

The Rust code is generic over an unsigned register type `T`; here a
register is a `Nat` together with an explicit width `w` (the bit size
of `T`: 8, 16, 32 or 64), and every width-sensitive operation truncates
with `% 2 ^ w`.  Rust's shift operators are embedded with their checked
("arithmetic overflow is an error") semantics: a shift whose amount is
at least the register width returns `none`, modelling the panic that
debug builds raise (release builds mask the shift amount instead; where
the two semantics disagree the code has already left the domain of
well-defined width-w arithmetic, which is exactly what the development
below needs to detect).
-/

namespace Crc

/-- Truncation to the low `w` bits: the value a width-`w` register holds. -/
def trunc (w v : Nat) : Nat := v % 2 ^ w

/-- Rust `value >> s` on a `w`-bit unsigned integer, checked semantics:
`none` models the shift-overflow panic when `s ≥ w`. -/
def shrChecked (w v s : Nat) : Option Nat :=
  if s < w then some (v >>> s) else none

/-- Rust `value << s` on a `w`-bit unsigned integer, checked semantics:
`none` models the shift-overflow panic when `s ≥ w`; otherwise the
result is truncated to `w` bits. -/
def shlChecked (w v s : Nat) : Option Nat :=
  if s < w then some ((v <<< s) % 2 ^ w) else none

/-- Full-width bit reversal: bit `i` of the result is bit `w - 1 - i` of
the input.  This embeds `swap_bits` of the external `bit_reverse` crate
(`ParallelReverse`), which the code uses in `CrcTable::finish`; the spec
(§4.1, §9) describes it as swapping bit `i` with bit `W-1-i` for all `i`. -/
def bitReverse (w v : Nat) : Nat :=
  (List.range w).foldl (fun acc i => acc + (((v >>> i) % 2) <<< (w - 1 - i))) 0

/-- Modelled from the spec: `src/primitive/table.rs` (module `table`,
providing `Table<T>` and `fill_table`) is not among the available source
files; only its caller `CrcTable::new` is.  Spec §4.2 fixes the contract:
entry `i` is the one-byte update step from register zero with input byte
`i`, computed by the standard direct-table algorithm — for reflected
input, 8 rounds advancing from the least-significant end, XORing the
bit-reversed `poly` whenever the bit shifted out is set; for
non-reflected input, the mirror image advancing from the most-significant
end, starting from `i` placed in the top byte. -/
def tableEntry (w poly : Nat) (refin : Bool) (i : Nat) : Nat :=
  if refin then
    let rpoly := bitReverse w poly
    Nat.iterate (fun r => if r % 2 = 1 then (r >>> 1) ^^^ rpoly else r >>> 1) 8 (i % 256)
  else
    Nat.iterate
      (fun r => if (r >>> (w - 1)) % 2 = 1 then ((r <<< 1) % 2 ^ w) ^^^ poly else (r <<< 1) % 2 ^ w)
      8 ((i % 256) <<< (w - 8) % 2 ^ w)

/-- Modelled from the spec: the 256-entry lookup table `fill_table`
builds (spec §4.2), a pure function of `(poly, refin)` at a given width. -/
def fill_table (w poly : Nat) (refin : Bool) : List Nat :=
  (List.range 256).map (tableEntry w poly refin)

/-- `CrcTable<T>` of src/primitive/spec.rs: the five Rocksoft parameters
plus the embedded 256-entry lookup table.  `w` stands for the bit size
of the register type `T` (`width()` in the code is `size_of::<T>() * 8`). -/
structure CrcTable where
  w : Nat
  poly : Nat
  init : Nat
  refin : Bool
  refout : Bool
  xorout : Nat
  table : List Nat

/-- `CrcTable::new`: stores the five parameters and fills the table from
`(poly, refin)`. -/
def CrcTable.new (w poly init : Nat) (refin refout : Bool) (xorout : Nat) : CrcTable :=
  { w := w, poly := poly, init := init, refin := refin, refout := refout,
    xorout := xorout, table := fill_table w poly refin }

/-- `CrcTable::update`.  Faithful to the source, including the hardcoded
shift amount 24 of the non-reflected branch:

  if refin { (value >> 8) ^ table[(value.to_u8() ^ byte) as usize] }
  else     { (value << 8) ^ table[((value >> 24).to_u8() ^ byte) as usize] }

`to_u8` is `% 256`; the shifts use the checked semantics above, so the
result is `none` exactly when a shift amount reaches the register width. -/
def CrcTable.update (s : CrcTable) (value byte : Nat) : Option Nat :=
  if s.refin then
    (shrChecked s.w value 8).map
      (fun hi => hi ^^^ s.table.getD ((value % 256) ^^^ (byte % 256)) 0)
  else
    (shlChecked s.w value 8).bind (fun lo =>
      (shrChecked s.w value 24).map
        (fun hi => lo ^^^ s.table.getD ((hi % 256) ^^^ (byte % 256)) 0))

/-- `CrcTable::finish`: reflect the register iff `refin != refout`, then
XOR with `xorout`.  Total: no shifts, only bit reversal and XOR. -/
def CrcTable.finish (s : CrcTable) (value : Nat) : Nat :=
  (if s.refin != s.refout then bitReverse s.w value else value) ^^^ s.xorout

/-- `CrcTableHasher` of src/primitive/hasher.rs: a mutable register plus
read-only access to a `CrcTable` (the `Borrow` indirection of the source
carries no state, so the spec is embedded directly). -/
structure CrcTableHasher where
  value : Nat
  spec : CrcTable

/-- `CrcHasher::reset` for `CrcTableHasher`: register becomes `spec.init()`. -/
def CrcTableHasher.reset (h : CrcTableHasher) : CrcTableHasher :=
  { h with value := h.spec.init }

/-- `CrcHasher::update` for `CrcTableHasher`: one byte through
`CrcTable::update`; `none` propagates a panic of the underlying shift. -/
def CrcTableHasher.update (h : CrcTableHasher) (byte : Nat) : Option CrcTableHasher :=
  (h.spec.update h.value byte).map (fun v => { h with value := v })

/-- `CrcHasher::finish` for `CrcTableHasher`: `spec.finish(register)`.
It takes the hasher immutably (`&self` in the source), so it is a plain
function of the state and returns no new state. -/
def CrcTableHasher.finish (h : CrcTableHasher) : Nat :=
  h.spec.finish h.value

/-- `From<S> for CrcTableHasher` (src/primitive/hasher.rs): build the
hasher with a zero register, then `reset()`. -/
def CrcTableHasher.fromSpec (spec : CrcTable) : CrcTableHasher :=
  CrcTableHasher.reset { value := 0, spec := spec }

/-- The `CrcHasher::update_from_slice` default method (src/lib.rs):

  for &b in bytes { self.update(b); }

embedded as a fold of `update` over the byte list, threading the
possibility of a panic. -/
def CrcTableHasher.update_from_slice (h : CrcTableHasher) (bytes : List Nat) :
    Option CrcTableHasher :=
  bytes.foldl (fun acc b => acc.bind (fun hh => hh.update b)) (some h)

/-- Sequential one-byte updates, written as direct recursion: the
"calling `update(b)` for each `b` in `bytes` in order" side of the
slice/loop equivalence. -/
def updateSeq (h : CrcTableHasher) : List Nat → Option CrcTableHasher
  | [] => some h
  | b :: rest =>
      match h.update b with
      | none => none
      | some h2 => updateSeq h2 rest

/-- The nine ASCII bytes 0x31..0x39, the string "123456789". -/
def checkBytes : List Nat := [0x31, 0x32, 0x33, 0x34, 0x35, 0x36, 0x37, 0x38, 0x39]

/-- One call a client can make on a `CrcTableHasher`: `update(b)`,
`finish()` or `reset()`. -/
inductive HasherOp where
  | upd (b : Nat)
  | fin
  | rst

/-- Runs a sequence of hasher calls, threading the hasher state and
collecting the value returned by each `finish()` call.  `finish` takes
the hasher by shared reference (`&self`), so it contributes its output
and leaves the state to the rest of the run unchanged; `update` may
propagate a shift-overflow panic as `none`. -/
def runOps (h : CrcTableHasher) : List HasherOp → Option (CrcTableHasher × List Nat)
  | [] => some (h, [])
  | HasherOp.upd b :: rest => (h.update b).bind (fun h2 => runOps h2 rest)
  | HasherOp.fin :: rest => (runOps h rest).map (fun p => (p.1, h.finish :: p.2))
  | HasherOp.rst :: rest => runOps h.reset rest

/-!
## Helper lemmas
-/

/-- Folding the panic-propagating update over any byte list from a dead
(`none`) accumulator stays dead. -/
theorem foldl_bind_none (bytes : List Nat) :
    bytes.foldl (fun acc b => acc.bind (fun hh => hh.update b))
      (none : Option CrcTableHasher) = none := by
  induction bytes with
  | nil => rfl
  | cons b rest ih => simpa using ih

/-- The fold that embeds `update_from_slice` agrees with the recursive
one-byte-at-a-time update sequence. -/
theorem foldl_bind_eq_updateSeq (bytes : List Nat) (h : CrcTableHasher) :
    bytes.foldl (fun acc b => acc.bind (fun hh => hh.update b)) (some h)
      = updateSeq h bytes := by
  induction bytes generalizing h with
  | nil => rfl
  | cons b rest ih =>
      simp only [List.foldl_cons, updateSeq, Option.some_bind]
      cases hb : h.update b with
      | none => simpa using foldl_bind_none rest
      | some h2 => exact ih h2

/-- Running the same call sequence over two parameter sets that agree on
width, lookup table, `refin` and `init` drives the register through the
same values, whatever `refout` and `xorout` are. -/
theorem runOps_value_congr (s1 s2 : CrcTable)
    (hw : s1.w = s2.w) (ht : s1.table = s2.table)
    (hrf : s1.refin = s2.refin) (hin : s1.init = s2.init)
    (v : Nat) (ops : List HasherOp) :
    (runOps { value := v, spec := s1 } ops).map (fun p => p.1.value)
      = (runOps { value := v, spec := s2 } ops).map (fun p => p.1.value) := by
  induction ops generalizing v with
  | nil => rfl
  | cons op rest ih =>
      cases op with
      | upd b =>
          have hu : s1.update v b = s2.update v b := by
            simp only [CrcTable.update, hw, ht, hrf]
          simp only [runOps, CrcTableHasher.update, hu]
          cases hs : s2.update v b with
          | none => rfl
          | some v2 => simpa using ih v2
      | fin =>
          simp only [runOps, Option.map_map]
          exact ih v
      | rst =>
          simp only [runOps, CrcTableHasher.reset, hin]
          exact ih s2.init

/-!
## The claims
-/

/-- Claim C1 fails on the code: the non-reflected branch of
`CrcTable::update` hardcodes the shift amount 24, so at width 64 the
table index comes from bits 24..31 of the register instead of from its
most-significant 8 bits.  At register `0x0100000000000000` with byte 0
and poly `0x04C11DB7` the code returns 0, while the claimed formula
`(register << 8) XOR T[high_byte(register) XOR byte]` (with
`high_byte = register >> 56` truncated to 8 bits) yields `0x04C11DB7`. -/
theorem update_width64_high_byte_mismatch :
    (CrcTable.new 64 0x04C11DB7 0 false false 0).update 0x0100000000000000 0 = some 0 ∧
    ((shlChecked 64 0x0100000000000000 8).bind (fun lo =>
      (shrChecked 64 0x0100000000000000 56).map (fun hb =>
        lo ^^^ (CrcTable.new 64 0x04C11DB7 0 false false 0).table.getD
          ((hb % 256) ^^^ (0 % 256)) 0))) = some 0x04C11DB7 ∧
    (0 : Nat) ≠ 0x04C11DB7 := by
  refine ⟨by decide, by decide, by decide⟩

/-- Claim C2 fails on the code: `CrcTable::update` is not total at every
supported width.  At width 8 the reflected branch computes `value >> 8`
and the non-reflected branch `value << 8`, a shift by the full register
width; at width 16 the non-reflected branch computes `value >> 24`, a
shift past the register width.  Both are arithmetic overflow in Rust
(a panic under checked builds), modelled here as `none`. -/
theorem update_width8_width16_shift_overflow :
    (CrcTable.new 8 0x07 0 true true 0).update 0 0 = none ∧
    (CrcTable.new 8 0x07 0 false false 0).update 0 0 = none ∧
    (CrcTable.new 16 0x8005 0 false false 0).update 0 0 = none := by
  refine ⟨by decide, by decide, by decide⟩

/-- Claim C3: the two reference vectors.  Feeding "123456789" (bytes
0x31..0x39) to a fresh hasher over
`{poly=0x04C11DB7, init=0xFFFFFFFF, refin=true, refout=true, xorout=0xFFFFFFFF}`
finishes to `0xCBF43926`, and over
`{poly=0x04C11DB7, init=0, refin=false, refout=false, xorout=0xFFFFFFFF}`
finishes to `0x765E7680`. -/
theorem check_values :
    ((CrcTableHasher.fromSpec
        (CrcTable.new 32 0x04C11DB7 0xFFFFFFFF true true 0xFFFFFFFF)).update_from_slice
        checkBytes).map CrcTableHasher.finish = some 0xCBF43926 ∧
    ((CrcTableHasher.fromSpec
        (CrcTable.new 32 0x04C11DB7 0 false false 0xFFFFFFFF)).update_from_slice
        checkBytes).map CrcTableHasher.finish = some 0x765E7680 := by
  refine ⟨by decide, by decide⟩

/-- Claim C4: for every parameter set and register value, `finish`
returns the bit-reversed register exactly when `refin` and `refout`
disagree, XORed with `xorout`; in particular `refin = refout = true`
never reflects. -/
theorem finish_reflects_iff_refin_ne_refout
    (w poly init : Nat) (refin refout : Bool) (xorout v : Nat) :
    (CrcTable.new w poly init refin refout xorout).finish v
      = (if refin ≠ refout then bitReverse w v else v) ^^^ xorout ∧
    (CrcTable.new w poly init true true xorout).finish v = v ^^^ xorout := by
  constructor
  · cases refin <;> cases refout <;> simp [CrcTable.finish, CrcTable.new]
  · rfl

/-- Claim C5: for every hasher state and byte sequence,
`update_from_slice(bytes)` reaches exactly the state (and hence the
`finish()` checksum) of calling `update(b)` for each byte in order. -/
theorem update_from_slice_eq_loop (h : CrcTableHasher) (bytes : List Nat) :
    h.update_from_slice bytes = updateSeq h bytes ∧
    (h.update_from_slice bytes).map CrcTableHasher.finish
      = (updateSeq h bytes).map CrcTableHasher.finish :=
  ⟨foldl_bind_eq_updateSeq bytes h,
   congrArg (Option.map CrcTableHasher.finish) (foldl_bind_eq_updateSeq bytes h)⟩

/-- Claim C6: two parameter sets built with the same `poly` and `refin`
(and register width) but arbitrary `init`, `refout`, `xorout` have the
same lookup table and agree on `update` at every register value and
byte. -/
theorem update_independent_of_init_refout_xorout
    (w poly : Nat) (refin : Bool) (i1 i2 x1 x2 : Nat) (r1 r2 : Bool) (v b : Nat) :
    (CrcTable.new w poly i1 refin r1 x1).update v b
      = (CrcTable.new w poly i2 refin r2 x2).update v b ∧
    (CrcTable.new w poly i1 refin r1 x1).table
      = (CrcTable.new w poly i2 refin r2 x2).table :=
  ⟨rfl, rfl⟩

/-- Claim C7: constructing a hasher from a spec leaves the register at
`spec.init()` (construction is an implicit reset), and `reset()` from
any register value followed by any byte sequence finishes to the same
checksum as a freshly constructed hasher fed the same sequence. -/
theorem reset_eq_fresh (spec : CrcTable) (v0 : Nat) (S : List Nat) :
    (CrcTableHasher.fromSpec spec).value = spec.init ∧
    (CrcTableHasher.update_from_slice
        (CrcTableHasher.reset { value := v0, spec := spec }) S).map CrcTableHasher.finish
      = ((CrcTableHasher.fromSpec spec).update_from_slice S).map CrcTableHasher.finish :=
  ⟨rfl, rfl⟩

/-- Claim C8: `finish()` never mutates the register.  Any number of
consecutive `finish()` calls returns the same value every time and ends
in the starting state, and a run that begins with a `finish()` reaches
the same states and outputs as the run without it (only the extra
output is prepended). -/
theorem finish_nondestructive (h : CrcTableHasher) (n : Nat) (ops : List HasherOp) :
    runOps h (List.replicate n HasherOp.fin) = some (h, List.replicate n h.finish) ∧
    runOps h (HasherOp.fin :: ops)
      = (runOps h ops).map (fun p => (p.1, h.finish :: p.2)) := by
  constructor
  · induction n with
    | zero => rfl
    | succ k ih => simp [List.replicate_succ, runOps, ih]
  · rfl

/-- Claim C9: fresh hashers over two parameter sets agreeing on width,
`poly`, `init` and `refin` (but with arbitrary `refout` and `xorout`)
drive their registers through identical values under any sequence of
`update`, `finish` and `reset` calls: the register never depends on
`refout`, `xorout`, or on `finish()` having been called. -/
theorem register_independent_of_refout_xorout
    (w poly init : Nat) (refin ro1 ro2 : Bool) (xo1 xo2 : Nat) (ops : List HasherOp) :
    (runOps (CrcTableHasher.fromSpec (CrcTable.new w poly init refin ro1 xo1)) ops).map
        (fun p => p.1.value)
      = (runOps (CrcTableHasher.fromSpec (CrcTable.new w poly init refin ro2 xo2)) ops).map
        (fun p => p.1.value) :=
  runOps_value_congr (CrcTable.new w poly init refin ro1 xo1)
    (CrcTable.new w poly init refin ro2 xo2) rfl rfl rfl rfl init ops

/-- Claim C10: `update_from_slice` on the empty byte sequence is the
identity on the hasher, so `finish()` returns the same checksum before
and after the call. -/
theorem update_from_slice_nil (h : CrcTableHasher) :
    h.update_from_slice [] = some h ∧
    (h.update_from_slice []).map CrcTableHasher.finish = some h.finish :=
  ⟨rfl, rfl⟩

end Crc
